import Mathlib

/-!
Verification of the generator pipeline in `scripts/gen_ir.py`.

The driver loads a specification unit and extra units (whose observable
effect on the process-wide `jinjautil` export registry is a sequence of
`register_global` / `register_filter` calls), builds a Jinja2 rendering
environment by snapshotting the registry into the environment globals and
filters, applies CLI `-D NAME=VALUE` override bindings on top, resolves the
template through a first-match-wins multi-directory loader, renders it, and
writes the full result to stdout only on success.

Python dictionaries are modelled as ordered association lists with unique
keys maintained by in-place update (`dictSet`), matching CPython insertion
order and update semantics.  `str.partition` for the separator `=` is
modelled by `strPartitionEq`.
-/

namespace GenIr

/-- A template-visible value.  CLI overrides always bind raw strings
(`Value.str`); units and registry defaults may bind arbitrary objects,
abstracted as `Value.obj` with an identity tag. -/
inductive Value where
  | str : String → Value
  | obj : Nat → Value
deriving DecidableEq, Repr

/-- A Python dict, as an ordered association list with in-place update. -/
abbrev Dict := List (String × Value)

/-- `d[k]` lookup: first (and, for dicts built by `dictSet`, only) match. -/
def dictGet (d : Dict) (k : String) : Option Value :=
  match d with
  | [] => none
  | (k₀, v₀) :: rest => if k₀ = k then some v₀ else dictGet rest k

/-- `d[k] = v`: replace the first binding of `k` in place, else append
(CPython dict assignment preserves insertion order on overwrite). -/
def dictSet (d : Dict) (k : String) (v : Value) : Dict :=
  match d with
  | [] => [(k, v)]
  | (k₀, v₀) :: rest =>
      if k₀ = k then (k₀, v) :: rest else (k₀, v₀) :: dictSet rest k v

/-- `d.update(other)`: assign each of `other`'s entries in order. -/
def dictUpdate (d : Dict) (other : Dict) : Dict :=
  other.foldl (fun acc kv => dictSet acc kv.1 kv.2) d

/-- The keys of a dict, in order. -/
def keys (d : Dict) : List String := d.map Prod.fst

/-- Left-biased choice on options. -/
def optOr {α : Type} : Option α → Option α → Option α
  | some v, _ => some v
  | none, o => o

/-- Modelled from the spec: the process-wide export registry owned by the
`jinjautil` module (not shipped under `src/`): two mappings, "globals"
(`jinjautil.exports`) and "filters" (`jinjautil.filters`), populated by
`register_global` / `register_filter`-style calls which overwrite silently
on name collision (last writer wins). -/
structure Registry where
  exports : Dict
  filters : Dict
deriving DecidableEq, Repr

/-- The registry both mappings start out empty at process start. -/
def initialRegistry : Registry := ⟨[], []⟩

/-- Modelled from the spec: a single registration performed against the
export registry (the only mutation surface the spec grants loaded code). -/
inductive RegAction where
  | registerGlobal (name : String) (v : Value)
  | registerFilter (name : String) (v : Value)
deriving DecidableEq, Repr

/-- Apply one registration: silent overwrite on collision. -/
def runAction (r : Registry) (a : RegAction) : Registry :=
  match a with
  | .registerGlobal n v => { r with exports := dictSet r.exports n v }
  | .registerFilter n v => { r with filters := dictSet r.filters n v }

/-- Modelled from the spec: the observable effect of executing one loaded
unit's top-level code (`load_module_from_file`) is the ordered sequence of
registrations it performs against the shared registry. -/
abbrev UnitCode := List RegAction

/-- Execute a unit: perform its registrations in order, synchronously. -/
def runUnit (r : Registry) (u : UnitCode) : Registry := u.foldl runAction r

/-- The registry state after the driver's start-up imports of the
`filters` and `jinjautil` modules have performed their module-level
registrations. -/
def registryAfterImports (moduleInit : UnitCode) : Registry :=
  runUnit initialRegistry moduleInit

/-- The trace of `("extra%s" % num, extrafile)` loads performed by
`for num, extrafile in enumerate(config.extra)`. -/
def extraTrace (num : Nat) : List String → List (String × String)
  | [] => []
  | f :: rest => ("extra" ++ toString num, f) :: extraTrace (num + 1) rest

/-- The full `(unitName, path)` load trace of `main`: the spec file first,
under unit name "spec", then each extra file in command-line order. -/
def loadTrace (specfile : String) (extra : List String) :
    List (String × String) :=
  ("spec", specfile) :: extraTrace 0 extra

/-- Splitting a character list at the first `=`: `none` when there is no
`=`, otherwise the parts strictly before and after it. -/
def partitionEqAux : List Char → Option (List Char × List Char)
  | [] => none
  | c :: cs =>
      if c = '=' then some ([], cs)
      else (partitionEqAux cs).map (fun p => (c :: p.1, p.2))

/-- Python `s.partition("=")`: `(before, "=", after)` at the first `=`, or
`(s, "", "")` when `s` contains no `=`. -/
def strPartitionEq (s : String) : String × String × String :=
  match partitionEqAux s.data with
  | none => (s, "", "")
  | some (a, b) => (String.mk a, "=", String.mk b)

/-- The Jinja2 rendering environment, reduced to the two namespaces the
driver populates: `env.globals` and `env.filters`. -/
structure Env where
  globals : Dict
  filters : Dict
deriving DecidableEq, Repr

/-- One `-D` definition applied: `(name, _, replacement) =
definition.partition("=")`, then `env.globals[name] = replacement` — the
raw string, no coercion, and only the global-value namespace is touched. -/
def applyDefinition (e : Env) (definition : String) : Env :=
  let p := strPartitionEq definition
  { e with globals := dictSet e.globals p.1 (Value.str p.2.2) }

/-- The `for definition in config.definitions` loop of `main`. -/
def applyDefinitions (e : Env) (defs : List String) : Env :=
  defs.foldl applyDefinition e

/-- The environment-construction phase of `main`: load the spec unit, load
the extra units in order, then build the environment by snapshotting the
registry (`env.globals.update(jinjautil.exports)`,
`env.filters.update(jinjautil.filters)`) and applying the `-D` overrides. -/
def buildEnv (moduleInit specUnit : UnitCode) (extras : List UnitCode)
    (defs : List String) : Env :=
  let r₁ := runUnit (registryAfterImports moduleInit) specUnit
  let r₂ := extras.foldl runUnit r₁
  let e₀ : Env := { globals := [], filters := [] }
  let e₁ : Env := { e₀ with globals := dictUpdate e₀.globals r₂.exports }
  let e₂ : Env := { e₁ with filters := dictUpdate e₁.filters r₂.filters }
  applyDefinitions e₂ defs

/-- A compiled template is a sequence of literal chunks, variable
substitutions and filter applications (the expression grammar itself is out
of scope; this is the interface rendering needs). -/
inductive Item where
  | text : String → Item
  | var : String → Item
  | filtered (fname : String) (vname : String) : Item
deriving DecidableEq, Repr

/-- The failures that can abort a run before output. -/
inductive RenderError where
  | templateNotFound (name : String)
  | undefinedName (name : String)
  | unknownFilter (name : String)
deriving DecidableEq, Repr

/-- Textual form of a value in rendered output: override strings render as
their raw text. -/
def valueToText : Value → String
  | .str s => s
  | .obj n => "object:" ++ toString n

/-- Render one template item against the environment; any unknown name or
unknown filter is an error. -/
def renderItem (e : Env) : Item → Except RenderError String
  | .text s => .ok s
  | .var n =>
      match dictGet e.globals n with
      | some v => .ok (valueToText v)
      | none => .error (.undefinedName n)
  | .filtered f n =>
      match dictGet e.globals n with
      | none => .error (.undefinedName n)
      | some v =>
          match dictGet e.filters f with
          | none => .error (.unknownFilter f)
          | some _ => .ok (valueToText v)

/-- Render a whole template: the concatenation of its items, or the first
error — no partial result is ever produced. -/
def renderItems (e : Env) : List Item → Except RenderError String
  | [] => .ok ""
  | i :: rest =>
      match renderItem e i with
      | .error err => .error err
      | .ok s =>
          match renderItems e rest with
          | .error err => .error err
          | .ok t => .ok (s ++ t)

/-- Modelled from the spec: `jinjautil.SimpleLoader` (not shipped under
`src/`) — for each directory of the search path in order, test existence of
`directory/templateName` and return the contents of the first match;
`none` (TemplateNotFound) when no directory contains the name.  The
filesystem is a partial map from paths to file contents. -/
def getSource (fs : String → Option String) :
    List String → String → Option String
  | [], _ => none
  | d :: rest, name =>
      match fs (d ++ "/" ++ name) with
      | some c => some c
      | none => getSource fs rest name

/-- Python `list.insert(1, dir)`: insert after the first element (at the
end when the list is empty).  This is how `main` adds each include
directory to `sys.path`. -/
def insertSecond (l : List String) (x : String) : List String :=
  match l with
  | [] => [x]
  | h :: t => h :: x :: t

/-- The `for dir in config.includedirs: sys.path.insert(1, dir)` loop. -/
def buildSysPath (sysPath₀ : List String) (includedirs : List String) :
    List String :=
  includedirs.foldl insertSecond sysPath₀

/-- `loader.includedirs += config.includedirs`: genuine in-order append. -/
def buildLoaderPath (loaderPath₀ : List String)
    (includedirs : List String) : List String :=
  loaderPath₀ ++ includedirs

/-- Does a string end in a newline character? -/
def endsWithNewline (s : String) : Bool := s.data.getLast? = some '\n'

/-- Drop a single trailing newline, if present. -/
def stripTrailingNewline (s : String) : String :=
  if endsWithNewline s then String.mk s.data.dropLast else s

/-- Modelled from the spec of Jinja2's `keep_trailing_newline` environment
option: when disabled (Jinja2's default) the lexer strips one trailing
newline from the template source before parsing; when enabled the source is
kept intact. -/
def preprocessSource (keepTrailingNewline : Bool) (src : String) : String :=
  if keepTrailingNewline then src else stripTrailingNewline src

/-- `main` constructs its environment with
`Environment(loader=loader, keep_trailing_newline=True)`. -/
def genIrKeepTrailingNewline : Bool := true

/-- The resolve-compile-render-emit tail of `main`
(`env.get_template(config.templatefile)`, `template.render()`,
`sys.stdout.write(result)`): returns the run's outcome together with the
list of writes performed on stdout.  Parsing of template source into items
is a parameter (the expression grammar is out of scope). -/
def driverRun (fs : String → Option String) (includedirs : List String)
    (parse : String → List Item) (e : Env) (templatefile : String) :
    Except RenderError String × List String :=
  match getSource fs includedirs templatefile with
  | none => (.error (.templateNotFound templatefile), [])
  | some src =>
      match renderItems e
          (parse (preprocessSource genIrKeepTrailingNewline src)) with
      | .ok result => (.ok result, [result])
      | .error err => (.error err, [])

/-- The state visible to registry writers after environment construction:
the registry dict objects and the environment's (distinct, since
`dict.update` copies entries) dicts. -/
structure World where
  registry : Registry
  env : Env
deriving DecidableEq, Repr

/-- A post-snapshot registry write: `register_global` / `register_filter`
mutate `jinjautil`'s dicts, which after `env.globals.update(...)` /
`env.filters.update(...)` are separate objects from the environment's. -/
def worldWrite (w : World) (a : RegAction) : World :=
  { w with registry := runAction w.registry a }

/-- The value of the LAST entry for key `k` in an association list: this is
what wins when the list is replayed entry by entry into a dict
(`dict.update` semantics). -/
def lastAssoc (l : Dict) (k : String) : Option Value :=
  match l with
  | [] => none
  | (k₀, v₀) :: rest =>
      match lastAssoc rest k with
      | some v => some v
      | none => if k₀ = k then some v₀ else none

/-- The value of the last `register_global` call for name `n` in a
registration sequence (silent-overwrite means the last writer wins). -/
def lastGlobalOf : UnitCode → String → Option Value
  | [], _ => none
  | a :: rest, n =>
      match lastGlobalOf rest n with
      | some v => some v
      | none =>
          match a with
          | .registerGlobal m v => if m = n then some v else none
          | .registerFilter _ _ => none

/-- The replacement string of the last `-D` definition binding name `m`
(later `-D` flags overwrite earlier ones of the same name). -/
def lastDefValue (defs : List String) (m : String) : Option Value :=
  match defs with
  | [] => none
  | d :: rest =>
      match lastDefValue rest m with
      | some v => some v
      | none =>
          if (strPartitionEq d).1 = m
          then some (Value.str (strPartitionEq d).2.2) else none

/-! ### Dictionary lemmas -/

theorem dictGet_dictSet (d : Dict) (k m : String) (v : Value) :
    dictGet (dictSet d k v) m = if k = m then some v else dictGet d m := by
  induction d with
  | nil =>
      by_cases h : k = m <;> simp [dictSet, dictGet, h]
  | cons hd tl ih =>
      obtain ⟨k₀, v₀⟩ := hd
      by_cases h₀ : k₀ = k
      · by_cases h₁ : k = m
        · simp [dictSet, dictGet, h₀, h₁, h₀.trans h₁]
        · have h₂ : ¬ k₀ = m := fun hh => h₁ (h₀.symm.trans hh)
          simp [dictSet, dictGet, h₀, h₁, h₂]
      · by_cases h₁ : k₀ = m
        · have h₂ : ¬ k = m := fun hh => h₀ (h₁.trans hh.symm)
          have h₃ : ¬ m = k := fun hh => h₀ (h₁.trans hh)
          simp [dictSet, dictGet, h₀, h₁, h₂, h₃]
        · simp [dictSet, dictGet, h₀, h₁, ih]

theorem dictGet_dictUpdate (kvs d : Dict) (m : String) :
    dictGet (dictUpdate d kvs) m = optOr (lastAssoc kvs m) (dictGet d m) := by
  induction kvs generalizing d with
  | nil => simp [dictUpdate, lastAssoc, optOr]
  | cons kv rest ih =>
      have hstep : dictUpdate d (kv :: rest) =
          dictUpdate (dictSet d kv.1 kv.2) rest := rfl
      rw [hstep, ih, dictGet_dictSet]
      simp only [lastAssoc]
      cases h : lastAssoc rest m <;> split_ifs <;> simp_all [optOr]

theorem mem_keys_dictSet (d : Dict) (k m : String) (v : Value)
    (h : m ∈ keys (dictSet d k v)) : m = k ∨ m ∈ keys d := by
  induction d with
  | nil => simp_all [dictSet, keys]
  | cons hd tl ih =>
      obtain ⟨k₀, v₀⟩ := hd
      simp only [dictSet] at h
      split_ifs at h with h₀
      · simp_all [keys]
      · simp only [keys, List.map_cons, List.mem_cons] at h ⊢
        rcases h with h | h
        · exact Or.inr (Or.inl h)
        · rcases ih h with h | h
          · exact Or.inl h
          · exact Or.inr (Or.inr h)

theorem nodup_keys_dictSet (d : Dict) (k : String) (v : Value)
    (h : (keys d).Nodup) : (keys (dictSet d k v)).Nodup := by
  induction d with
  | nil => simp [dictSet, keys]
  | cons hd tl ih =>
      obtain ⟨k₀, v₀⟩ := hd
      simp only [keys, List.map_cons, List.nodup_cons] at h
      simp only [dictSet]
      split_ifs with h₀
      · simp only [keys, List.map_cons, List.nodup_cons]
        exact h
      · simp only [keys, List.map_cons, List.nodup_cons]
        refine ⟨fun hmem => ?_, ih h.2⟩
        rcases mem_keys_dictSet tl k k₀ v hmem with h₁ | h₁
        · exact h₀ h₁
        · exact h.1 h₁

theorem lastAssoc_eq_none_of_not_mem (d : Dict) (m : String)
    (h : m ∉ keys d) : lastAssoc d m = none := by
  induction d with
  | nil => rfl
  | cons hd tl ih =>
      obtain ⟨k₀, v₀⟩ := hd
      simp only [keys, List.map_cons, List.mem_cons, not_or] at h
      simp only [lastAssoc, ih h.2]
      split_ifs with h₀
      · exact absurd h₀.symm h.1
      · rfl

theorem lastAssoc_eq_dictGet (d : Dict) (m : String)
    (h : (keys d).Nodup) : lastAssoc d m = dictGet d m := by
  induction d with
  | nil => rfl
  | cons hd tl ih =>
      obtain ⟨k₀, v₀⟩ := hd
      simp only [keys, List.map_cons, List.nodup_cons] at h
      by_cases h₀ : k₀ = m
      · subst h₀
        have hnone : lastAssoc tl k₀ = none :=
          lastAssoc_eq_none_of_not_mem tl k₀ h.1
        simp [lastAssoc, dictGet, hnone]
      · simp only [lastAssoc, dictGet, ih h.2, h₀, if_false]
        cases dictGet tl m <;> simp

/-! ### Registry and unit-loading lemmas -/

theorem runUnit_append (r : Registry) (u₁ u₂ : UnitCode) :
    runUnit r (u₁ ++ u₂) = runUnit (runUnit r u₁) u₂ := by
  simp [runUnit, List.foldl_append]

theorem foldl_runUnit_eq_flatten (extras : List UnitCode) (r : Registry) :
    extras.foldl runUnit r = runUnit r extras.flatten := by
  induction extras generalizing r with
  | nil => rfl
  | cons u us ih =>
      have hstep : (u :: us).foldl runUnit r = us.foldl runUnit (runUnit r u) := rfl
      rw [hstep, ih, List.flatten_cons, runUnit_append]

theorem exports_runAction_filter (r : Registry) (n : String) (v : Value) :
    (runAction r (.registerFilter n v)).exports = r.exports := rfl

theorem dictGet_runUnit_exports (u : UnitCode) (r : Registry) (m : String) :
    dictGet (runUnit r u).exports m =
      optOr (lastGlobalOf u m) (dictGet r.exports m) := by
  induction u generalizing r with
  | nil => simp [runUnit, lastGlobalOf, optOr]
  | cons a rest ih =>
      have hstep : runUnit r (a :: rest) = runUnit (runAction r a) rest := rfl
      rw [hstep, ih]
      cases h : lastGlobalOf rest m with
      | some v => simp [lastGlobalOf, h, optOr]
      | none =>
          cases a with
          | registerGlobal n v =>
              simp only [lastGlobalOf, h, runAction, dictGet_dictSet, optOr]
              split_ifs <;> simp [optOr]
          | registerFilter n v =>
              simp [lastGlobalOf, h, runAction, optOr]

theorem nodup_keys_runUnit (u : UnitCode) (r : Registry)
    (h : (keys r.exports).Nodup) : (keys (runUnit r u).exports).Nodup := by
  induction u generalizing r with
  | nil => exact h
  | cons a rest ih =>
      have hstep : runUnit r (a :: rest) = runUnit (runAction r a) rest := rfl
      rw [hstep]
      refine ih (runAction r a) ?_
      cases a with
      | registerGlobal n v => exact nodup_keys_dictSet _ _ _ h
      | registerFilter n v => exact h

/-! ### Override-application lemmas -/

theorem dictGet_applyDefinitions (defs : List String) (e : Env) (m : String) :
    dictGet (applyDefinitions e defs).globals m =
      optOr (lastDefValue defs m) (dictGet e.globals m) := by
  induction defs generalizing e with
  | nil => simp [applyDefinitions, lastDefValue, optOr]
  | cons d rest ih =>
      have hstep : applyDefinitions e (d :: rest) =
          applyDefinitions (applyDefinition e d) rest := rfl
      rw [hstep, ih]
      simp only [applyDefinition, dictGet_dictSet, lastDefValue]
      cases h : lastDefValue rest m <;> split_ifs <;> simp_all [optOr]

/-! ### `str.partition("=")` lemmas -/

theorem partitionEqAux_of_not_mem (l : List Char) (h : '=' ∉ l) :
    partitionEqAux l = none := by
  induction l with
  | nil => rfl
  | cons c cs ih =>
      simp only [List.mem_cons, not_or] at h
      have hc : ¬ c = '=' := fun hh => h.1 hh.symm
      simp [partitionEqAux, hc, ih h.2]

theorem partitionEqAux_append (l₁ l₂ : List Char) (h : '=' ∉ l₁) :
    partitionEqAux (l₁ ++ '=' :: l₂) = some (l₁, l₂) := by
  induction l₁ with
  | nil => simp [partitionEqAux]
  | cons c cs ih =>
      simp only [List.mem_cons, not_or] at h
      have hc : ¬ c = '=' := fun hh => h.1 hh.symm
      simp [partitionEqAux, hc, ih h.2]

theorem strPartitionEq_of_not_mem (s : String) (h : '=' ∉ s.data) :
    strPartitionEq s = (s, "", "") := by
  unfold strPartitionEq
  rw [partitionEqAux_of_not_mem s.data h]

theorem strPartitionEq_append (n r : String) (h : '=' ∉ n.data) :
    strPartitionEq (n ++ "=" ++ r) = (n, "=", r) := by
  unfold strPartitionEq
  have hdata : (n ++ "=" ++ r).data = n.data ++ '=' :: r.data := by
    simp [String.data_append]
  rw [hdata, partitionEqAux_append n.data r.data h]

/-! ### Load-trace lemmas -/

theorem extraTrace_length (l : List String) (num : Nat) :
    (extraTrace num l).length = l.length := by
  induction l generalizing num with
  | nil => rfl
  | cons f rest ih => simp [extraTrace, ih]

theorem extraTrace_getElem (l : List String) (num i : Nat) :
    (extraTrace num l)[i]? =
      l[i]?.map (fun e => ("extra" ++ toString (num + i), e)) := by
  induction l generalizing num i with
  | nil => simp [extraTrace]
  | cons f rest ih =>
      cases i with
      | zero => simp [extraTrace]
      | succ j =>
          have hcons : extraTrace num (f :: rest) =
              ("extra" ++ toString num, f) :: extraTrace (num + 1) rest := rfl
          rw [hcons, List.getElem?_cons_succ, ih, List.getElem?_cons_succ]
          have harith : num + 1 + j = num + (j + 1) := by omega
          rw [harith]

/-! ### Driver lemmas -/

theorem driverRun_some (fs : String → Option String)
    (includedirs : List String) (parse : String → List Item) (e : Env)
    (templatefile src : String)
    (hres : getSource fs includedirs templatefile = some src) :
    driverRun fs includedirs parse e templatefile =
      match renderItems e
          (parse (preprocessSource genIrKeepTrailingNewline src)) with
      | Except.ok result => (Except.ok result, [result])
      | Except.error err => (Except.error err, []) := by
  unfold driverRun
  rw [hres]

/-! ### Claim theorems -/

/-- C1: binding precedence on name collision is registry globals <
names registered by the spec/extra units < CLI override bindings.  The
environment's final binding of any name `n` is: the last `-D` override of
`n` if any, else the last value the loaded units registered for `n`, else
the registry global for `n` left by the start-up imports.  In particular a
unit-registered name that collides with a registry global is bound to the
loaded-unit value. -/
theorem binding_precedence (moduleInit specUnit : UnitCode)
    (extras : List UnitCode) (defs : List String) (n : String) :
    dictGet (buildEnv moduleInit specUnit extras defs).globals n =
      optOr (lastDefValue defs n)
        (optOr (lastGlobalOf (specUnit ++ extras.flatten) n)
          (dictGet (registryAfterImports moduleInit).exports n)) := by
  unfold buildEnv
  rw [dictGet_applyDefinitions]
  have hreg : extras.foldl runUnit
        (runUnit (registryAfterImports moduleInit) specUnit)
      = runUnit (registryAfterImports moduleInit)
          (specUnit ++ extras.flatten) := by
    rw [foldl_runUnit_eq_flatten, runUnit_append]
  simp only [hreg, dictGet_dictUpdate]
  have hnodup : (keys (runUnit (registryAfterImports moduleInit)
      (specUnit ++ extras.flatten)).exports).Nodup := by
    refine nodup_keys_runUnit _ _ ?_
    refine nodup_keys_runUnit _ _ ?_
    simp [initialRegistry, keys]
  rw [lastAssoc_eq_dictGet _ _ hnodup, dictGet_runUnit_exports]
  have hnil : dictGet ([] : Dict) n = none := rfl
  rw [hnil]
  cases lastDefValue defs n <;>
    cases lastGlobalOf (specUnit ++ extras.flatten) n <;>
      cases dictGet (registryAfterImports moduleInit).exports n <;>
        simp [optOr]

/-- C2: a `-D NAME=VALUE` override whose name collides with a name already
bound in the environment's globals wins: afterwards the name is bound to
exactly the raw VALUE string (no coercion), and rendering a reference to
the name emits the override value. -/
theorem override_wins (e : Env) (n val : String) (v₀ : Value)
    (hcol : dictGet e.globals n = some v₀)
    (hn : '=' ∉ n.data) :
    dictGet (applyDefinitions e [n ++ "=" ++ val]).globals n
        = some (Value.str val)
    ∧ renderItems (applyDefinitions e [n ++ "=" ++ val]) [Item.var n]
        = Except.ok val := by
  have hbind : dictGet (applyDefinitions e [n ++ "=" ++ val]).globals n
      = some (Value.str val) := by
    have hsingle : applyDefinitions e [n ++ "=" ++ val] =
        applyDefinition e (n ++ "=" ++ val) := rfl
    rw [hsingle]
    simp [applyDefinition, strPartitionEq_append n val hn, dictGet_dictSet]
  refine ⟨hbind, ?_⟩
  simp [renderItems, renderItem, hbind, valueToText]

/-- C2 witness: the spec's example scenario — with global `NAME` bound to
`"x"`, the override `NAME=42` rebinds it to the literal string `"42"` and
the rendered output is `"42"`. -/
theorem override_wins_witness :
    dictGet (applyDefinitions ⟨[("NAME", Value.str "x")], []⟩
        ["NAME" ++ "=" ++ "42"]).globals "NAME" = some (Value.str "42")
    ∧ renderItems (applyDefinitions ⟨[("NAME", Value.str "x")], []⟩
        ["NAME" ++ "=" ++ "42"]) [Item.var "NAME"] = Except.ok "42" :=
  override_wins ⟨[("NAME", Value.str "x")], []⟩ "NAME" "42"
    (Value.str "x") (by decide) (by decide)

/-- C3 counterexample: with include directories `["a", "b"]` and an initial
module search path `["script"]`, the driver's `sys.path.insert(1, dir)`
loop yields `["script", "b", "a"]` — NOT the in-order append
`["script", "a", "b"]` the claim asserts; module resolution consults the
user's directories in reverse order. -/
theorem syspath_not_in_order :
    buildSysPath ["script"] ["a", "b"] = ["script", "b", "a"]
    ∧ buildSysPath ["script"] ["a", "b"] ≠ ["script"] ++ ["a", "b"] := by
  constructor
  · rfl
  · decide

/-- C3 amended: the include directories are appended, in the given order,
to the template loader's search path; to the module search path each is
inserted at position 1 instead, so after the loop the first original entry
is followed by the user's directories in reverse order. -/
theorem includedirs_paths (loaderPath₀ : List String) (head : String)
    (tail dirs : List String) :
    buildLoaderPath loaderPath₀ dirs = loaderPath₀ ++ dirs
    ∧ buildSysPath (head :: tail) dirs = head :: (dirs.reverse ++ tail) := by
  refine ⟨rfl, ?_⟩
  induction dirs generalizing tail with
  | nil => rfl
  | cons d ds ih =>
      have hstep : buildSysPath (head :: tail) (d :: ds) =
          buildSysPath (head :: d :: tail) ds := rfl
      rw [hstep, ih]
      simp

/-- C4: if template resolution or rendering fails, the driver writes
nothing to stdout — the single `sys.stdout.write(result)` happens only
after `template.render()` has returned the complete result. -/
theorem no_output_on_error (fs : String → Option String)
    (includedirs : List String) (parse : String → List Item) (e : Env)
    (templatefile : String) (err : RenderError)
    (hfail : (driverRun fs includedirs parse e templatefile).1
      = Except.error err) :
    (driverRun fs includedirs parse e templatefile).2 = [] := by
  cases hsrc : getSource fs includedirs templatefile with
  | none =>
      unfold driverRun
      rw [hsrc]
  | some src =>
      rw [driverRun_some fs includedirs parse e templatefile src hsrc]
        at hfail ⊢
      cases hr : renderItems e
          (parse (preprocessSource genIrKeepTrailingNewline src)) with
      | ok result => rw [hr] at hfail; simp at hfail
      | error e₂ => rfl

/-- C4 witness: a missing template (no directory contains it) aborts the
run with `templateNotFound` and the stdout write list is empty. -/
theorem no_output_on_error_witness :
    (driverRun (fun _ => none) ["dir"] (fun _ => []) ⟨[], []⟩ "t").2 = [] :=
  no_output_on_error (fun _ => none) ["dir"] (fun _ => []) ⟨[], []⟩ "t"
    (RenderError.templateNotFound "t") rfl

/-- C5: applying `-D` override bindings touches only `env.globals`; the
filter namespace of the environment is left untouched, so no filter can be
shadowed by a definition. -/
theorem overrides_preserve_filters (e : Env) (defs : List String) :
    (applyDefinitions e defs).filters = e.filters := by
  induction defs generalizing e with
  | nil => rfl
  | cons d rest ih =>
      have hstep : applyDefinitions e (d :: rest) =
        applyDefinitions (applyDefinition e d) rest := rfl
      rw [hstep, ih]
      rfl

/-- C6: the specification unit is loaded first under unit name "spec",
then each extra unit exactly once, in command-line order, under unit names
"extra0", "extra1", …: the load trace has the spec file at position 0, one
entry per extra file, and the i-th extra file at position i+1 under name
`extra<i>`. -/
theorem load_order (specfile : String) (extra : List String) :
    (loadTrace specfile extra)[0]? = some ("spec", specfile)
    ∧ (loadTrace specfile extra).length = 1 + extra.length
    ∧ ∀ (i : Nat) (e : String), extra[i]? = some e →
        (loadTrace specfile extra)[i + 1]? =
          some ("extra" ++ toString i, e) := by
  have hcons : loadTrace specfile extra =
      ("spec", specfile) :: extraTrace 0 extra := rfl
  refine ⟨?_, ?_, ?_⟩
  · rw [hcons, List.getElem?_cons_zero]
  · simp [hcons, extraTrace_length]
    omega
  · intro i e he
    rw [hcons, List.getElem?_cons_succ, extraTrace_getElem, he]
    simp

/-- C6 witness: with extras `["e0.py", "e1.py"]`, the second extra file is
loaded at position 2 of the trace under unit name "extra1". -/
theorem load_order_witness :
    (loadTrace "s.py" ["e0.py", "e1.py"])[2]? = some ("extra1", "e1.py") := by
  have h := (load_order "s.py" ["e0.py", "e1.py"]).2.2 1 "e1.py" rfl
  rw [h]
  rfl

/-- C7: template resolution is first-match-wins — if the first directory of
the search path contains the template name, that directory's content is
returned, regardless of what later directories contain. -/
theorem first_match_wins (fs : String → Option String) (d : String)
    (rest : List String) (name c : String)
    (h : fs (d ++ "/" ++ name) = some c) :
    getSource fs (d :: rest) name = some c := by
  simp [getSource, h]

/-- C7 witness: the spec's example scenario — `out.tmpl` exists in both
`/tpl_a` and `/tpl_b`; with search path `["/tpl_a", "/tpl_b"]` the content
of `/tpl_a/out.tmpl` is returned. -/
theorem first_match_wins_witness :
    getSource
      (fun p => if p = "/tpl_a/out.tmpl" then some "A"
        else if p = "/tpl_b/out.tmpl" then some "B" else none)
      ["/tpl_a", "/tpl_b"] "out.tmpl" = some "A" :=
  first_match_wins
    (fun p => if p = "/tpl_a/out.tmpl" then some "A"
      else if p = "/tpl_b/out.tmpl" then some "B" else none)
    "/tpl_a" ["/tpl_b"] "out.tmpl" "A" (by decide)

/-- C8: once the environment has snapshotted the registry (dict `update`
copies the entries), any sequence of later registry writes leaves the
environment's bindings — and hence the rendered output of the run —
unchanged. -/
theorem snapshot_immune (w : World) (ws : List RegAction) (t : List Item) :
    (ws.foldl worldWrite w).env = w.env
    ∧ renderItems (ws.foldl worldWrite w).env t = renderItems w.env t := by
  have henv : ∀ w₀ : World, (ws.foldl worldWrite w₀).env = w₀.env := by
    induction ws with
    | nil => intro w₀; rfl
    | cons a rest ih =>
        intro w₀
        have hstep : (a :: rest).foldl worldWrite w₀ =
            rest.foldl worldWrite (worldWrite w₀ a) := rfl
        rw [hstep, ih]
        rfl
  exact ⟨henv w, by rw [henv w]⟩

/-- C9: each `-D` definition is split at its first `=` only: a definition
with no `=` binds the whole string to the empty string, and `NAME=A=B`
binds `NAME` to the string `A=B`. -/
theorem definition_split_first_eq (e : Env) (s n a b : String)
    (hs : '=' ∉ s.data) (hn : '=' ∉ n.data) :
    dictGet (applyDefinitions e [s]).globals s = some (Value.str "")
    ∧ dictGet (applyDefinitions e [n ++ "=" ++ (a ++ "=" ++ b)]).globals n
        = some (Value.str (a ++ "=" ++ b)) := by
  constructor
  · have hsingle : applyDefinitions e [s] = applyDefinition e s := rfl
    rw [hsingle]
    simp [applyDefinition, strPartitionEq_of_not_mem s hs, dictGet_dictSet]
  · have hsingle : applyDefinitions e [n ++ "=" ++ (a ++ "=" ++ b)] =
        applyDefinition e (n ++ "=" ++ (a ++ "=" ++ b)) := rfl
    rw [hsingle]
    simp [applyDefinition, strPartitionEq_append n (a ++ "=" ++ b) hn,
      dictGet_dictSet]

/-- C9 witness: `-D FLAG` binds `FLAG` to `""`; `-D NAME=A=B` binds `NAME`
to `"A=B"`. -/
theorem definition_split_first_eq_witness :
    dictGet (applyDefinitions ⟨[], []⟩ ["FLAG"]).globals "FLAG"
        = some (Value.str "")
    ∧ dictGet (applyDefinitions ⟨[], []⟩
        ["NAME" ++ "=" ++ ("A" ++ "=" ++ "B")]).globals "NAME"
        = some (Value.str ("A" ++ "=" ++ "B")) :=
  definition_split_first_eq ⟨[], []⟩ "FLAG" "NAME" "A" "B"
    (by decide) (by decide)

/-- C10: the environment is constructed with `keep_trailing_newline=True`,
so the template source reaches the parser unstripped, and for a template
whose source ends in a newline the text written to stdout ends in that
newline too. -/
theorem trailing_newline_preserved (fs : String → Option String)
    (includedirs : List String) (parse : String → List Item) (e : Env)
    (templatefile src : String)
    (hres : getSource fs includedirs templatefile = some src)
    (hparse : parse src = [Item.text src])
    (hnl : endsWithNewline src = true) :
    genIrKeepTrailingNewline = true
    ∧ preprocessSource genIrKeepTrailingNewline src = src
    ∧ (driverRun fs includedirs parse e templatefile).2 = [src]
    ∧ (driverRun fs includedirs parse e templatefile).2.all
        endsWithNewline = true := by
  have hout : (driverRun fs includedirs parse e templatefile).2 = [src] := by
    rw [driverRun_some fs includedirs parse e templatefile src hres]
    have hpre : preprocessSource genIrKeepTrailingNewline src = src := rfl
    rw [hpre, hparse]
    simp [renderItems, renderItem]
  refine ⟨rfl, rfl, hout, ?_⟩
  rw [hout]
  simp [List.all, hnl]

/-- C10 witness: a literal template `"hello\n"` resolved from directory
`d` is emitted verbatim, trailing newline included. -/
theorem trailing_newline_preserved_witness :
    (driverRun (fun p => if p = "d/t" then some "hello\n" else none) ["d"]
      (fun s => [Item.text s]) ⟨[], []⟩ "t").2 = ["hello\n"] :=
  (trailing_newline_preserved
    (fun p => if p = "d/t" then some "hello\n" else none) ["d"]
    (fun s => [Item.text s]) ⟨[], []⟩ "t" "hello\n"
    (by decide) rfl (by decide)).2.2.1

end GenIr
